import Mathlib

/-!
Verification of the did-key codec (dvjn/did-key-go).

The Go sources are shallowly embedded: byte slices become `List Nat` (each
entry < 256 where the Go value is a byte), strings become `String` /
`List Char`, `uint64` arithmetic is `Nat` with explicit `% 2 ^ 64`, and
fallible functions return `Except`.  Loops whose Go termination argument is a
decreasing numeric value are written with an explicit fuel parameter; the
fuel chosen at each call site is proved sufficient, so the embedded function
agrees with the Go loop on every input the theorems mention.

The repository contains two near-duplicate revisions of the orchestrator.
The self-contained revision (the did-key file shipping its own base58,
multibase and varint code, together with multicodec.go and types.go) is the
one embedded here; errors.go's taxonomy is used for the error type.
-/

set_option maxRecDepth 20000

deriving instance DecidableEq for Except

/-! ## types.go -/

/-- types.go: `type KeyType string` — a string type, not a closed enum. -/
abbrev KeyType := String

def KeyTypeEd25519 : KeyType := "Ed25519"

def KeyTypeX25519 : KeyType := "X25519"

def KeyTypeSecp256k1 : KeyType := "secp256k1"

def KeyTypeBLS12381G1 : KeyType := "BLS12381G1"

def KeyTypeBLS12381G2 : KeyType := "BLS12381G2"

def KeyTypeP256 : KeyType := "P-256"

def KeyTypeP384 : KeyType := "P-384"

def MulticodecEd25519Pub : Nat := 0xed

def MulticodecX25519Pub : Nat := 0xec

def MulticodecSecp256k1Pub : Nat := 0xe7

def MulticodecBLS12381G1Pub : Nat := 0xea

def MulticodecBLS12381G2Pub : Nat := 0xeb

def MulticodecP256Pub : Nat := 0x1200

def MulticodecP384Pub : Nat := 0x1201

/-! ## Error taxonomy

Each constructor corresponds to one error-production site of the sources
(the `NewError(op, reason)` calls of the self-contained revision, resp. the
sentinel values of errors.go).  `noKeyDataAfterVarint` is errors.go's
`ErrNoKeyDataAfterVarint`; the alternate revision of `Decode` (did_key.go)
returns it, the self-contained revision embedded below never does. -/

/-- Errors of the base58 / multibase layer (unnamed/part_000). -/
inductive MultibaseError where
  | invalidMultibaseHeader : MultibaseError
  | invalidBase58Char : Char → MultibaseError
deriving DecidableEq, Repr

/-- Errors of `decodeMulticodec` (multicodec.go): empty input, truncated
varint, and the 64-bit shift overflow. -/
inductive MulticodecError where
  | emptyVarintData : MulticodecError
  | incompleteVarint : MulticodecError
  | multicodecTooLarge : MulticodecError
deriving DecidableEq, Repr

/-- Errors of the did-key orchestrator (go.mod revision and errors.go). -/
inductive DKError where
  | emptyKeyBytes : DKError
  | unsupportedKeyTypeEncode : KeyType → DKError
  | unsupportedKeyTypeValidate : KeyType → DKError
  | unsupportedMulticodec : Nat → DKError
  | invalidKeySize : KeyType → Nat → Nat → DKError
  | invalidDIDKeyHeader : DKError
  | emptyMultibaseString : DKError
  | multibaseDecodeFailed : MultibaseError → DKError
  | emptyMulticodecData : DKError
  | failedToDecodeMulticodec : MulticodecError → DKError
  | noKeyDataAfterVarint : DKError
deriving DecidableEq, Repr

/-! ## unnamed/part_000 — base58-btc and multibase -/

/-- part_000: `Base58BTCAlphabet`, the 58-character base58-btc alphabet. -/
def Base58BTCAlphabet : List Char :=
  "123456789ABCDEFGHJKLMNPQRSTUVWXYZabcdefghijkmnopqrstuvwxyz".toList

/-- part_000: one pass of the byte-array long division by 58 inside
`encodeBase58BTC` (`temp := remainder*256 + num[i]; num[i] = temp/base;
remainder = temp%base` over the slice, left to right).  Returns the new
slice and the final remainder. -/
def divmod58 (r : Nat) : List Nat → List Nat × Nat
  | [] => ([], r)
  | b :: bs =>
    let t := r * 256 + b
    let (q, r') := divmod58 (t % 58) bs
    (t / 58 :: q, r')

/-- part_000: the `for len(num) > 0` loop of `encodeBase58BTC`.  Each
iteration divides `num` by 58, prepends the alphabet character of the
remainder, and strips the leading zero bytes of the quotient.  `fuel`
bounds the number of iterations (the Go loop terminates because the value
of `num` strictly decreases); every call site passes provably sufficient
fuel. -/
def encodeBase58Loop : Nat → List Nat → List Char → List Char
  | 0, _, enc => enc
  | fuel + 1, num, enc =>
    if num.isEmpty then enc
    else
      let (q, r) := divmod58 0 num
      encodeBase58Loop fuel (q.dropWhile (· == 0)) (Base58BTCAlphabet.getD r '1' :: enc)

/-- part_000: `encodeBase58BTC`.  Counts the leading zero bytes, runs the
division loop on a copy of the input, and prepends one `'1'`
(= `Base58BTCAlphabet[0]`) per leading zero byte. -/
def encodeBase58BTC (data : List Nat) : List Char :=
  if data.isEmpty then []
  else
    let leadingZeros := (data.takeWhile (· == 0)).length
    List.replicate leadingZeros '1' ++ encodeBase58Loop (2 * data.length + 1) data []

/-- part_000: the inner `for i := len(decoded)-1; i >= 0; i--` pass of
`decodeBase58BTC`: multiply the big-endian byte array by 58 and add the
digit `d`, the carry flowing from the rightmost byte leftwards.  Returns
the updated array and the outgoing carry. -/
def mulAdd58 (d : Nat) : List Nat → List Nat × Nat
  | [] => ([], d)
  | b :: bs =>
    let (bs', c) := mulAdd58 d bs
    let t := b * 58 + c
    (t % 256 :: bs', t / 256)

/-- part_000: the `for carry > 0` loop of `decodeBase58BTC`, prepending
`carry % 256` and dividing the carry by 256.  `fuel` bounds the iterations;
`carry + 1` is always sufficient since the carry strictly decreases. -/
def carryPrepend : Nat → Nat → List Nat → List Nat
  | 0, _, ds => ds
  | fuel + 1, c, ds => if c == 0 then ds else carryPrepend fuel (c / 256) (c % 256 :: ds)

/-- part_000: the body of the character loop of `decodeBase58BTC` for one
valid digit index `d`. -/
def decodeBase58Step (decoded : List Nat) (d : Nat) : List Nat :=
  let (ds, c) := mulAdd58 d decoded
  carryPrepend (c + 1) c ds

/-- part_000: the `for _, char := range encoded` loop of `decodeBase58BTC`:
look each character up in the alphabet (`strings.IndexRune`), failing on the
first character that is absent, and fold `decodeBase58Step` over the digit
indices. -/
def decodeBase58Go (decoded : List Nat) : List Char → Except MultibaseError (List Nat)
  | [] => .ok decoded
  | ch :: rest =>
    match Base58BTCAlphabet.findIdx? (fun x => x == ch) with
    | none => .error (.invalidBase58Char ch)
    | some d => decodeBase58Go (decodeBase58Step decoded d) rest

/-- part_000: `decodeBase58BTC`.  Empty input decodes to empty output;
otherwise count the leading `'1'` characters, run the accumulation loop
seeded with the single byte array `[0]`, and prepend one zero byte per
leading `'1'`. -/
def decodeBase58BTC (encoded : List Char) : Except MultibaseError (List Nat) :=
  if encoded.isEmpty then .ok []
  else
    let leadingOnes := (encoded.takeWhile (· == '1')).length
    match decodeBase58Go [0] encoded with
    | .error e => .error e
    | .ok decoded => .ok (List.replicate leadingOnes 0 ++ decoded)

/-- part_000: `encodeMultibase` — the base58-btc text with the `'z'`
multibase discriminator prepended. -/
def encodeMultibase (data : List Nat) : List Char :=
  'z' :: encodeBase58BTC data

/-- part_000: `decodeMultibase` — requires the `'z'` discriminator and
delegates to `decodeBase58BTC` on the remainder. -/
def decodeMultibase : List Char → Except MultibaseError (List Nat)
  | c :: rest =>
    if c == 'z' then decodeBase58BTC rest else .error .invalidMultibaseHeader
  | [] => .error .invalidMultibaseHeader

/-! ## multicodec.go -/

/-- multicodec.go: the `for codec >= 0x80` loop of `encodeMulticodec`
(LEB128 groups, low groups first).  A uint64 value needs at most 10 groups,
so fuel 10 is sufficient for every `codec < 2 ^ 64`. -/
def encodeMulticodecLoop : Nat → Nat → List Nat
  | 0, _ => []
  | fuel + 1, codec =>
    if codec ≥ 0x80 then (codec % 256 ||| 0x80) :: encodeMulticodecLoop fuel (codec >>> 7)
    else [codec]

/-- multicodec.go: `encodeMulticodec` — unsigned varint encoding of a
uint64 multicodec value. -/
def encodeMulticodec (codec : Nat) : List Nat :=
  encodeMulticodecLoop 10 codec

/-- multicodec.go: the `for i, b := range data` loop of `decodeMulticodec`.
`value` is a uint64 accumulator (hence the `% 2 ^ 64` truncation of the
shifted group, exactly as Go truncates `uint64(b&0x7F) << shift`). -/
def decodeMulticodecLoop : List Nat → Nat → Nat → Nat → Except MulticodecError (Nat × Nat)
  | [], _, _, _ => .error .incompleteVarint
  | b :: rest, value, shift, bytesRead =>
    let value := value ||| (b &&& 0x7F) <<< shift % 2 ^ 64
    if b &&& 0x80 == 0 then .ok (value, bytesRead + 1)
    else if shift + 7 ≥ 64 then .error .multicodecTooLarge
    else decodeMulticodecLoop rest value (shift + 7) (bytesRead + 1)

/-- multicodec.go: `decodeMulticodec` — decodes an unsigned varint,
returning the value and the number of bytes consumed. -/
def decodeMulticodec (data : List Nat) : Except MulticodecError (Nat × Nat) :=
  if data.isEmpty then .error .emptyVarintData
  else decodeMulticodecLoop data 0 0 0

/-- multicodec.go: `getMulticodecForKeyType` — key type to wire tag. -/
def getMulticodecForKeyType (keyType : KeyType) : Except DKError Nat :=
  if keyType == KeyTypeEd25519 then .ok MulticodecEd25519Pub
  else if keyType == KeyTypeX25519 then .ok MulticodecX25519Pub
  else if keyType == KeyTypeSecp256k1 then .ok MulticodecSecp256k1Pub
  else if keyType == KeyTypeBLS12381G1 then .ok MulticodecBLS12381G1Pub
  else if keyType == KeyTypeBLS12381G2 then .ok MulticodecBLS12381G2Pub
  else if keyType == KeyTypeP256 then .ok MulticodecP256Pub
  else if keyType == KeyTypeP384 then .ok MulticodecP384Pub
  else .error (.unsupportedKeyTypeEncode keyType)

/-- multicodec.go: `getKeyTypeForMulticodec` — wire tag to key type. -/
def getKeyTypeForMulticodec (codec : Nat) : Except DKError KeyType :=
  if codec == MulticodecEd25519Pub then .ok KeyTypeEd25519
  else if codec == MulticodecX25519Pub then .ok KeyTypeX25519
  else if codec == MulticodecSecp256k1Pub then .ok KeyTypeSecp256k1
  else if codec == MulticodecBLS12381G1Pub then .ok KeyTypeBLS12381G1
  else if codec == MulticodecBLS12381G2Pub then .ok KeyTypeBLS12381G2
  else if codec == MulticodecP256Pub then .ok KeyTypeP256
  else if codec == MulticodecP384Pub then .ok KeyTypeP384
  else .error (.unsupportedMulticodec codec)

/-- multicodec.go: `encodeMulticodecKey` — varint tag followed by the raw
key bytes. -/
def encodeMulticodecKey (keyType : KeyType) (keyBytes : List Nat) :
    Except DKError (List Nat) :=
  match getMulticodecForKeyType keyType with
  | .error e => .error e
  | .ok codec => .ok (encodeMulticodec codec ++ keyBytes)

/-- multicodec.go: `decodeMulticodecKey` — decode the leading varint tag,
map it to a key type, and return the remaining bytes (everything after the
consumed varint). -/
def decodeMulticodecKey (data : List Nat) : Except DKError (KeyType × List Nat) :=
  if data.isEmpty then .error .emptyMulticodecData
  else
    match decodeMulticodec data with
    | .error e => .error (.failedToDecodeMulticodec e)
    | .ok (codec, bytesRead) =>
      match getKeyTypeForMulticodec codec with
      | .error e => .error e
      | .ok keyType => .ok (keyType, data.drop bytesRead)

/-! ## The did-key orchestrator (self-contained revision in go.mod) -/

/-- The `switch keyType` of `validateKeySize` computing `expectedSize`
(`none` is the `default` branch). -/
def expectedKeySize? (keyType : KeyType) : Option Nat :=
  if keyType == KeyTypeEd25519 then some 32
  else if keyType == KeyTypeX25519 then some 32
  else if keyType == KeyTypeSecp256k1 then some 33
  else if keyType == KeyTypeBLS12381G1 then some 48
  else if keyType == KeyTypeBLS12381G2 then some 96
  else if keyType == KeyTypeP256 then some 33
  else if keyType == KeyTypeP384 then some 49
  else none

/-- `validateKeySize` — unsupported type, or length mismatch against the
type's fixed expected size. -/
def validateKeySize (keyType : KeyType) (keyBytes : List Nat) : Except DKError Unit :=
  match expectedKeySize? keyType with
  | none => .error (.unsupportedKeyTypeValidate keyType)
  | some expectedSize =>
    if keyBytes.length ≠ expectedSize then
      .error (.invalidKeySize keyType expectedSize keyBytes.length)
    else .ok ()

/-- `DIDKeyPrefix = "did:key:"` as a character list. -/
def didKeyHeader : List Char := "did:key:".toList

/-- `Encode` on character lists: empty-bytes gate, size validation,
multicodec tagging, multibase encoding, `did:key:` prefixing. -/
def EncodeL (keyType : KeyType) (keyBytes : List Nat) : Except DKError (List Char) :=
  if keyBytes.isEmpty then .error .emptyKeyBytes
  else
    match validateKeySize keyType keyBytes with
    | .error e => .error e
    | .ok _ =>
      match encodeMulticodecKey keyType keyBytes with
      | .error e => .error e
      | .ok multicodecBytes => .ok (didKeyHeader ++ encodeMultibase multicodecBytes)

/-- `Encode(keyType, keyBytes) (string, error)` of the self-contained
revision. -/
def Encode (keyType : KeyType) (keyBytes : List Nat) : Except DKError String :=
  (EncodeL keyType keyBytes).map String.mk

/-- `Decode` on character lists: prefix gate, non-empty remainder gate,
multibase decoding, multicodec decoding, size validation. -/
def DecodeL (didKey : List Char) : Except DKError (KeyType × List Nat) :=
  if didKeyHeader.isPrefixOf didKey then
    let multibaseString := didKey.drop didKeyHeader.length
    if multibaseString.isEmpty then .error .emptyMultibaseString
    else
      match decodeMultibase multibaseString with
      | .error e => .error (.multibaseDecodeFailed e)
      | .ok multicodecBytes =>
        match decodeMulticodecKey multicodecBytes with
        | .error e => .error e
        | .ok (keyType, keyBytes) =>
          match validateKeySize keyType keyBytes with
          | .error e => .error e
          | .ok _ => .ok (keyType, keyBytes)
  else .error .invalidDIDKeyHeader

/-- `Decode(didKey) (KeyType, []byte, error)` of the self-contained
revision. -/
def Decode (didKey : String) : Except DKError (KeyType × List Nat) :=
  DecodeL didKey.toList

/-- The seven supported key types. -/
def SupportedKeyTypes : List KeyType :=
  [KeyTypeEd25519, KeyTypeX25519, KeyTypeSecp256k1, KeyTypeBLS12381G1,
   KeyTypeBLS12381G2, KeyTypeP256, KeyTypeP384]

/-! ## Arithmetic toolkit: big-endian values of digit lists -/

/-- Value of a big-endian digit list in base `b` (the number the Go code
manipulates as a byte array when `b = 256`, and the accumulator of the
base58 loops when `b = 58`). -/
def polyVal (b : Nat) (l : List Nat) : Nat :=
  l.foldl (fun a d => a * b + d) 0

/-- The character used for digit `d` (`Base58BTCAlphabet[d]`). -/
def toB58Char (d : Nat) : Char := Base58BTCAlphabet.getD d '1'

/-- The byte array the decode loop maintains for accumulator value `w`:
`[0]` for zero (its seed), otherwise the big-endian base-256 digits. -/
def canonRep (w : Nat) : List Nat :=
  if w = 0 then [0] else (Nat.digits 256 w).reverse

/-- The digit index the decode loop computes for a character. -/
def b58Index (ch : Char) : Nat :=
  (Base58BTCAlphabet.findIdx? (fun x => x == ch)).getD 0

/-- The stages of `DecodeL` after the prefix has been stripped and the
remainder found non-empty. -/
def decodeStages (rest : List Char) : Except DKError (KeyType × List Nat) :=
  match decodeMultibase rest with
  | .error e => .error (.multibaseDecodeFailed e)
  | .ok multicodecBytes =>
    match decodeMulticodecKey multicodecBytes with
    | .error e => .error e
    | .ok (keyType, keyBytes) =>
      match validateKeySize keyType keyBytes with
      | .error e => .error e
      | .ok _ => .ok (keyType, keyBytes)

theorem polyVal_go (b : Nat) :
    ∀ (l : List Nat) (a : Nat),
      l.foldl (fun x d => x * b + d) a = a * b ^ l.length + polyVal b l
  | [], a => by simp [polyVal]
  | x :: xs, a => by
    simp only [polyVal, List.foldl_cons, List.length_cons]
    rw [polyVal_go b xs (a * b + x), polyVal_go b xs (0 * b + x)]
    ring

theorem polyVal_cons (b x : Nat) (l : List Nat) :
    polyVal b (x :: l) = x * b ^ l.length + polyVal b l := by
  simp only [polyVal, List.foldl_cons]
  rw [polyVal_go]
  simp only [Nat.zero_mul, Nat.zero_add]
  rfl

theorem polyVal_append (b : Nat) (l₁ l₂ : List Nat) :
    polyVal b (l₁ ++ l₂) = polyVal b l₁ * b ^ l₂.length + polyVal b l₂ := by
  simp only [polyVal, List.foldl_append]
  rw [polyVal_go]
  rfl

theorem polyVal_reverse (b : Nat) :
    ∀ l : List Nat, polyVal b l.reverse = Nat.ofDigits b l
  | [] => by simp [polyVal, Nat.ofDigits]
  | d :: ds => by
    simp only [List.reverse_cons]
    rw [polyVal_append, Nat.ofDigits_cons, polyVal_reverse b ds]
    simp [polyVal]
    ring

theorem polyVal_eq_ofDigits (b : Nat) (l : List Nat) :
    polyVal b l = Nat.ofDigits b l.reverse := by
  rw [← polyVal_reverse b l.reverse, List.reverse_reverse]

theorem polyVal_lt (b : Nat) :
    ∀ l : List Nat, (∀ x ∈ l, x < b) → polyVal b l < b ^ l.length
  | [], _ => by simp [polyVal]
  | x :: l, h => by
    rw [polyVal_cons, List.length_cons, pow_succ']
    have hx : x + 1 ≤ b := h x (List.mem_cons_self x l)
    calc x * b ^ l.length + polyVal b l
        < x * b ^ l.length + b ^ l.length :=
          Nat.add_lt_add_left (polyVal_lt b l (fun y hy => h y (List.mem_cons_of_mem x hy))) _
      _ = (x + 1) * b ^ l.length := by ring
      _ ≤ b * b ^ l.length := Nat.mul_le_mul_right _ hx

theorem polyVal_pos (b x : Nat) (l : List Nat) (hb : 0 < b) (hx : x ≠ 0) :
    0 < polyVal b (x :: l) := by
  rw [polyVal_cons]
  have : 0 < x * b ^ l.length :=
    Nat.mul_pos (Nat.pos_of_ne_zero hx) (Nat.pos_pow_of_pos _ hb)
  omega

/-! ## Correctness of the base58 encoder -/

theorem divmod58_cons (r b : Nat) (bs : List Nat) :
    divmod58 r (b :: bs) =
      ((r * 256 + b) / 58 :: (divmod58 ((r * 256 + b) % 58) bs).1,
        (divmod58 ((r * 256 + b) % 58) bs).2) := rfl

/-- One long-division pass computes the quotient and remainder of the
big-endian value by 58, preserving the array length. -/
theorem divmod58_spec :
    ∀ (bs : List Nat) (r : Nat), r < 58 →
      (divmod58 r bs).1.length = bs.length ∧
      polyVal 256 (divmod58 r bs).1 = (r * 256 ^ bs.length + polyVal 256 bs) / 58 ∧
      (divmod58 r bs).2 = (r * 256 ^ bs.length + polyVal 256 bs) % 58
  | [], r, hr => by
    refine ⟨rfl, ?_, ?_⟩ <;> simp [divmod58, polyVal] <;> omega
  | b :: bs, r, _ => by
    obtain ⟨ih1, ih2, ih3⟩ :=
      divmod58_spec bs ((r * 256 + b) % 58) (Nat.mod_lt _ (by norm_num))
    rw [divmod58_cons]
    have hval : r * 256 ^ (b :: bs).length + polyVal 256 (b :: bs) =
        ((r * 256 + b) % 58) * 256 ^ bs.length + polyVal 256 bs +
          58 * ((r * 256 + b) / 58 * 256 ^ bs.length) := by
      rw [polyVal_cons, List.length_cons]
      have hdm := Nat.div_add_mod (r * 256 + b) 58
      calc r * 256 ^ (bs.length + 1) + (b * 256 ^ bs.length + polyVal 256 bs)
          = (r * 256 + b) * 256 ^ bs.length + polyVal 256 bs := by ring
        _ = (58 * ((r * 256 + b) / 58) + (r * 256 + b) % 58) * 256 ^ bs.length +
              polyVal 256 bs := by rw [hdm]
        _ = ((r * 256 + b) % 58) * 256 ^ bs.length + polyVal 256 bs +
              58 * ((r * 256 + b) / 58 * 256 ^ bs.length) := by ring
    refine ⟨by simpa using ih1, ?_, ?_⟩
    · rw [polyVal_cons, ih1, ih2, hval,
        Nat.add_mul_div_left _ _ (by norm_num : (0:ℕ) < 58)]
      ring
    · rw [ih3, hval, Nat.add_mul_mod_self_left]

/-- The bytes produced by a long-division pass stay below 256. -/
theorem divmod58_lt :
    ∀ (bs : List Nat) (r : Nat), r < 58 → (∀ x ∈ bs, x < 256) →
      ∀ x ∈ (divmod58 r bs).1, x < 256
  | [], _, _, _ => by simp [divmod58]
  | b :: bs, r, hr, hbs => by
    rw [divmod58_cons]
    intro x hx
    rcases List.mem_cons.mp hx with h | h
    · subst h
      have hb : b < 256 := hbs b (List.mem_cons_self b bs)
      rw [Nat.div_lt_iff_lt_mul (by norm_num : (0:ℕ) < 58)]
      omega
    · exact divmod58_lt bs ((r * 256 + b) % 58) (Nat.mod_lt _ (by norm_num))
        (fun y hy => hbs y (List.mem_cons_of_mem b hy)) x h

theorem dropWhile_zero_polyVal :
    ∀ l : List Nat, polyVal 256 (l.dropWhile (· == 0)) = polyVal 256 l
  | [] => rfl
  | x :: l => by
    by_cases hx : x = 0
    · subst hx
      rw [List.dropWhile_cons_of_pos (by simp), dropWhile_zero_polyVal l, polyVal_cons]
      simp
    · rw [List.dropWhile_cons_of_neg (by simpa using hx)]

theorem dropWhile_zero_shape :
    ∀ l : List Nat, l.dropWhile (· == 0) = [] ∨
      ∃ h t, l.dropWhile (· == 0) = h :: t ∧ h ≠ 0
  | [] => .inl rfl
  | x :: l => by
    by_cases hx : x = 0
    · subst hx
      rw [List.dropWhile_cons_of_pos (by simp)]
      exact dropWhile_zero_shape l
    · rw [List.dropWhile_cons_of_neg (by simpa using hx)]
      exact .inr ⟨x, l, rfl, hx⟩

theorem encodeBase58Loop_nil (fuel : Nat) (enc : List Char) :
    encodeBase58Loop fuel [] enc = enc := by
  cases fuel <;> rfl

theorem encodeBase58Loop_succ (fuel b : Nat) (bs : List Nat) (enc : List Char) :
    encodeBase58Loop (fuel + 1) (b :: bs) enc =
      encodeBase58Loop fuel ((divmod58 0 (b :: bs)).1.dropWhile (· == 0))
        (toB58Char (divmod58 0 (b :: bs)).2 :: enc) := rfl

/-- The division loop emits exactly the base-58 digits (most significant
first) of the big-endian value of `num`, in alphabet characters, whenever
the value is positive and the fuel dominates its digit count. -/
theorem encodeBase58Loop_spec :
    ∀ (fuel : Nat) (num : List Nat) (enc : List Char),
      (∀ x ∈ num, x < 256) → 0 < polyVal 256 num →
      polyVal 256 num < 58 ^ fuel →
      encodeBase58Loop fuel num enc =
        ((Nat.digits 58 (polyVal 256 num)).reverse.map toB58Char) ++ enc := by
  intro fuel
  induction fuel with
  | zero =>
    intro num enc _ hpos hlt
    simp only [pow_zero, Nat.lt_one_iff] at hlt
    omega
  | succ f ih =>
    intro num enc hb hpos hlt
    match num with
    | [] => simp [polyVal] at hpos
    | b :: bs =>
      rw [encodeBase58Loop_succ]
      obtain ⟨hlen, hq, hr⟩ := divmod58_spec (b :: bs) 0 (by norm_num)
      simp only [Nat.zero_mul, Nat.zero_add] at hq hr
      set V := polyVal 256 (b :: bs) with hV
      have hq' : polyVal 256 ((divmod58 0 (b :: bs)).1.dropWhile (· == 0)) = V / 58 := by
        rw [dropWhile_zero_polyVal, hq]
      rcases dropWhile_zero_shape (divmod58 0 (b :: bs)).1 with hnil | ⟨h, t, hht, hh0⟩
      · -- quotient is zero: the value is a single digit
        have hV58 : V / 58 = 0 := by rw [← hq', hnil]; rfl
        have hVlt : V < 58 := by omega
        rw [hnil, encodeBase58Loop_nil, hr,
          Nat.digits_of_lt 58 V (by omega) hVlt]
        simp [Nat.mod_eq_of_lt hVlt]
      · -- quotient is positive: recurse
        have hq0 : 0 < V / 58 := by
          rw [← hq', hht]
          exact polyVal_pos 256 h t (by norm_num) hh0
        have hblt : ∀ x ∈ (divmod58 0 (b :: bs)).1.dropWhile (· == 0), x < 256 := by
          intro x hx
          exact divmod58_lt (b :: bs) 0 (by norm_num) hb x
            ((List.dropWhile_sublist _).subset hx)
        have hfuel : V / 58 < 58 ^ f := by
          rw [Nat.div_lt_iff_lt_mul (by norm_num : (0:ℕ) < 58)]
          calc V < 58 ^ (f + 1) := hlt
            _ = 58 ^ f * 58 := by rw [pow_succ]
        rw [ih _ _ hblt (by rw [hq']; exact hq0) (by rw [hq']; exact hfuel), hq', hr,
          Nat.digits_def' (by norm_num : 1 < 58) hpos]
        simp

/-- `encodeBase58BTC` on a byte array with a non-zero first byte produces
exactly the alphabet rendering of the base-58 digits of its value. -/
theorem encodeBase58BTC_spec (h : Nat) (t : List Nat) (hh : h ≠ 0)
    (hb : ∀ x ∈ h :: t, x < 256) :
    encodeBase58BTC (h :: t) =
      (Nat.digits 58 (polyVal 256 (h :: t))).reverse.map toB58Char := by
  rw [encodeBase58BTC]
  simp only [List.isEmpty_cons, Bool.false_eq_true, if_false]
  rw [List.takeWhile_cons_of_neg (by simpa using hh)]
  simp only [List.length_nil, List.replicate_zero, List.nil_append]
  have hpos : 0 < polyVal 256 (h :: t) := polyVal_pos 256 h t (by norm_num) hh
  have hlt : polyVal 256 (h :: t) < 58 ^ (2 * (h :: t).length + 1) := by
    calc polyVal 256 (h :: t) < 256 ^ (h :: t).length := polyVal_lt 256 _ hb
      _ ≤ (58 ^ 2) ^ (h :: t).length := Nat.pow_le_pow_left (by norm_num) _
      _ = 58 ^ (2 * (h :: t).length) := by rw [← pow_mul]
      _ ≤ 58 ^ (2 * (h :: t).length + 1) :=
          Nat.pow_le_pow_right (by norm_num) (Nat.le_succ _)
  have := encodeBase58Loop_spec (2 * (h :: t).length + 1) (h :: t) [] hb hpos hlt
  rw [this, List.append_nil]

/-! ## Correctness of the base58 decoder -/

theorem canonRep_ne_nil (w : Nat) : canonRep w ≠ [] := by
  unfold canonRep
  split
  · simp
  · simpa [List.reverse_eq_nil_iff] using Nat.digits_ne_nil_iff_ne_zero.mpr (by assumption)

theorem canonRep_lt (w : Nat) : ∀ x ∈ canonRep w, x < 256 := by
  unfold canonRep
  split
  · simp
  · intro x hx
    exact Nat.digits_lt_base (by norm_num) (List.mem_reverse.mp hx)

theorem canonRep_polyVal (w : Nat) : polyVal 256 (canonRep w) = w := by
  unfold canonRep
  split
  · simp [polyVal]
    omega
  · rw [polyVal_eq_ofDigits, List.reverse_reverse, Nat.ofDigits_digits]

theorem getLast_eq_of_some {l : List Nat} (a : Nat) (hne : l ≠ [])
    (h : l.getLast? = some a) : l.getLast hne = a := by
  have hx := List.getLast?_eq_getLast l hne
  rw [h] at hx
  exact (Option.some.inj hx).symm

theorem canonRep_long_head (w h : Nat) (t : List Nat) (he : canonRep w = h :: t)
    (ht : t ≠ []) : h ≠ 0 := by
  unfold canonRep at he
  split at he
  · injection he with h1 h2
    exact absurd h2.symm ht
  · have hw : w ≠ 0 := by assumption
    have hne : Nat.digits 256 w ≠ [] := Nat.digits_ne_nil_iff_ne_zero.mpr hw
    have hsome : (Nat.digits 256 w).getLast? = some h := by
      rw [← List.reverse_reverse (Nat.digits 256 w), he]
      simp [List.getLast?_reverse]
    have hlast := Nat.getLast_digit_ne_zero 256 hw
    rw [getLast_eq_of_some h hne hsome] at hlast
    exact hlast

/-- A non-empty byte array whose first byte is zero only when it is the
single seed byte is exactly the canonical array of its value. -/
theorem eq_canonRep (h : Nat) (t : List Nat) (hb : ∀ x ∈ h :: t, x < 256)
    (hz : h = 0 → t = []) : canonRep (polyVal 256 (h :: t)) = h :: t := by
  by_cases hh : h = 0
  · rw [hz hh, hh]
    simp [polyVal, canonRep]
  · have hpos : 0 < polyVal 256 (h :: t) := polyVal_pos 256 h t (by norm_num) hh
    unfold canonRep
    rw [if_neg (by omega), polyVal_eq_ofDigits,
      Nat.digits_ofDigits 256 (by norm_num) _
        (fun x hx => hb x (List.mem_reverse.mp hx))
        (fun hne => by
          rw [getLast_eq_of_some h hne (by simp [List.getLast?_reverse])]
          exact hh),
      List.reverse_reverse]

theorem mulAdd58_cons (d b : Nat) (bs : List Nat) :
    mulAdd58 d (b :: bs) =
      ((b * 58 + (mulAdd58 d bs).2) % 256 :: (mulAdd58 d bs).1,
        (b * 58 + (mulAdd58 d bs).2) / 256) := rfl

/-- The multiply-add pass multiplies the big-endian value by 58 and adds
the digit, the leftover landing in the outgoing carry. -/
theorem mulAdd58_spec :
    ∀ (l : List Nat) (d : Nat),
      (mulAdd58 d l).1.length = l.length ∧
      polyVal 256 (mulAdd58 d l).1 + (mulAdd58 d l).2 * 256 ^ l.length
        = polyVal 256 l * 58 + d ∧
      (∀ x ∈ (mulAdd58 d l).1, x < 256)
  | [], d => by simp [mulAdd58, polyVal]
  | b :: bs, d => by
    obtain ⟨ih1, ih2, ih3⟩ := mulAdd58_spec bs d
    rw [mulAdd58_cons]
    refine ⟨by simpa using ih1, ?_, ?_⟩
    · rw [polyVal_cons, polyVal_cons, ih1, List.length_cons]
      have hdm : (b * 58 + (mulAdd58 d bs).2) % 256 +
          256 * ((b * 58 + (mulAdd58 d bs).2) / 256) = b * 58 + (mulAdd58 d bs).2 :=
        Nat.mod_add_div _ _
      calc (b * 58 + (mulAdd58 d bs).2) % 256 * 256 ^ bs.length +
            polyVal 256 (mulAdd58 d bs).1 +
            (b * 58 + (mulAdd58 d bs).2) / 256 * 256 ^ (bs.length + 1)
          = ((b * 58 + (mulAdd58 d bs).2) % 256 +
              256 * ((b * 58 + (mulAdd58 d bs).2) / 256)) * 256 ^ bs.length +
              polyVal 256 (mulAdd58 d bs).1 := by ring
        _ = (b * 58 + (mulAdd58 d bs).2) * 256 ^ bs.length +
              polyVal 256 (mulAdd58 d bs).1 := by rw [hdm]
        _ = b * 58 * 256 ^ bs.length +
              (polyVal 256 (mulAdd58 d bs).1 + (mulAdd58 d bs).2 * 256 ^ bs.length) := by
            ring
        _ = b * 58 * 256 ^ bs.length + (polyVal 256 bs * 58 + d) := by rw [ih2]
        _ = (b * 256 ^ bs.length + polyVal 256 bs) * 58 + d := by ring
    · intro x hx
      rcases List.mem_cons.mp hx with hx | hx
      · subst hx
        exact Nat.mod_lt _ (by norm_num)
      · exact ih3 x hx

/-- The carry loop prepends exactly the big-endian base-256 digits of the
carry, provided the fuel dominates the carry. -/
theorem carryPrepend_succ (fuel c : Nat) (ds : List Nat) :
    carryPrepend (fuel + 1) c ds =
      if c == 0 then ds else carryPrepend fuel (c / 256) (c % 256 :: ds) := rfl

theorem carryPrepend_spec :
    ∀ (fuel c : Nat) (ds : List Nat), c < 256 ^ fuel →
      carryPrepend fuel c ds = (Nat.digits 256 c).reverse ++ ds
  | 0, c, ds, hc => by
    simp only [pow_zero, Nat.lt_one_iff] at hc
    subst hc
    simp [carryPrepend]
  | fuel + 1, c, ds, hc => by
    by_cases h0 : c = 0
    · subst h0
      simp [carryPrepend_succ]
    · have hpos : 0 < c := Nat.pos_of_ne_zero h0
      have hdiv : c / 256 < 256 ^ fuel := by
        rw [Nat.div_lt_iff_lt_mul (by norm_num : (0:ℕ) < 256)]
        calc c < 256 ^ (fuel + 1) := hc
          _ = 256 ^ fuel * 256 := by rw [pow_succ]
      rw [carryPrepend_succ, if_neg (by simpa using h0),
        carryPrepend_spec fuel (c / 256) (c % 256 :: ds) hdiv,
        Nat.digits_def' (by norm_num : 1 < 256) hpos]
      simp

/-- Fuel `c + 1` always suffices for the carry loop. -/
theorem carryPrepend_self (c : Nat) (ds : List Nat) :
    carryPrepend (c + 1) c ds = (Nat.digits 256 c).reverse ++ ds :=
  carryPrepend_spec (c + 1) c ds
    (lt_of_lt_of_le (Nat.lt_pow_self (by norm_num) c)
      (Nat.pow_le_pow_right (by norm_num) (Nat.le_succ c)))

theorem decodeBase58Step_eq (decoded : List Nat) (d : Nat) :
    decodeBase58Step decoded d =
      carryPrepend ((mulAdd58 d decoded).2 + 1) (mulAdd58 d decoded).2
        (mulAdd58 d decoded).1 := rfl

/-- One decode-loop step on the canonical array of `w` with digit `d`
yields the canonical array of `w * 58 + d`. -/
theorem decodeBase58Step_canon (w d : Nat) :
    decodeBase58Step (canonRep w) d = canonRep (w * 58 + d) := by
  obtain ⟨hlen, hval, hlt⟩ := mulAdd58_spec (canonRep w) d
  rw [decodeBase58Step_eq, carryPrepend_self]
  have h1 := canonRep_polyVal w
  rw [h1] at hval
  have hXval : polyVal 256 ((Nat.digits 256 (mulAdd58 d (canonRep w)).2).reverse ++
      (mulAdd58 d (canonRep w)).1) = w * 58 + d := by
    rw [polyVal_append, polyVal_reverse, Nat.ofDigits_digits, hlen]
    linarith
  by_cases hc0 : (mulAdd58 d (canonRep w)).2 = 0
  · rw [hc0]
    simp only [Nat.digits_zero, List.reverse_nil, List.nil_append]
    rw [hc0] at hXval
    simp only [Nat.digits_zero, List.reverse_nil, List.nil_append] at hXval
    obtain ⟨h₀, t₀, hcw⟩ := List.exists_cons_of_ne_nil (canonRep_ne_nil w)
    have hds_eq : (mulAdd58 d (canonRep w)).1 =
        (h₀ * 58 + (mulAdd58 d t₀).2) % 256 :: (mulAdd58 d t₀).1 := by
      rw [hcw, mulAdd58_cons]
    have hc_eq : (mulAdd58 d (canonRep w)).2 =
        (h₀ * 58 + (mulAdd58 d t₀).2) / 256 := by
      rw [hcw, mulAdd58_cons]
    rcases t₀ with _ | ⟨y, ys⟩
    · have hone : (mulAdd58 d (canonRep w)).1.length = 1 := by
        rw [hlen, hcw]
        rfl
      obtain ⟨z, hz⟩ := List.length_eq_one.mp hone
      rw [hz]
      rw [hz] at hXval
      rw [← hXval]
      exact (eq_canonRep z [] (by
        intro x hx
        apply hlt
        rw [hz]
        exact hx) (fun _ => rfl)).symm
    · have hh₀ : h₀ ≠ 0 := canonRep_long_head w h₀ (y :: ys) hcw (by simp)
      have hsmall : h₀ * 58 + (mulAdd58 d (y :: ys)).2 < 256 := by
        rw [hc_eq] at hc0
        omega
      have hhead : (h₀ * 58 + (mulAdd58 d (y :: ys)).2) % 256 ≠ 0 := by
        rw [Nat.mod_eq_of_lt hsmall]
        have : 0 < h₀ * 58 := Nat.mul_pos (Nat.pos_of_ne_zero hh₀) (by norm_num)
        omega
      rw [hds_eq]
      rw [hds_eq] at hXval
      rw [← hXval]
      exact (eq_canonRep _ _ (by
        intro x hx
        apply hlt
        rw [hds_eq]
        exact hx) (fun h0 => absurd h0 hhead)).symm
  · have hdig : Nat.digits 256 (mulAdd58 d (canonRep w)).2 ≠ [] :=
      Nat.digits_ne_nil_iff_ne_zero.mpr hc0
    have hrev : (Nat.digits 256 (mulAdd58 d (canonRep w)).2).reverse ≠ [] := by
      simpa [List.reverse_eq_nil_iff] using hdig
    obtain ⟨g, gs, hg⟩ := List.exists_cons_of_ne_nil hrev
    have hsome : (Nat.digits 256 (mulAdd58 d (canonRep w)).2).getLast? = some g := by
      rw [← List.head?_reverse, hg]
      rfl
    have hgne : g ≠ 0 := by
      have := Nat.getLast_digit_ne_zero 256 hc0
      rw [getLast_eq_of_some g hdig hsome] at this
      exact this
    rw [hg, List.cons_append]
    rw [hg, List.cons_append] at hXval
    rw [← hXval]
    refine (eq_canonRep g (gs ++ (mulAdd58 d (canonRep w)).1) ?_ (fun h0 => absurd h0 hgne)).symm
    intro x hx
    rw [← List.cons_append, ← hg] at hx
    rcases List.mem_append.mp hx with hx | hx
    · exact Nat.digits_lt_base (by norm_num) (List.mem_reverse.mp hx)
    · exact hlt x hx

/-- Running the character loop from the canonical array of `w` over valid
characters folds the base-58 accumulation and stays canonical. -/
theorem decodeBase58Go_spec :
    ∀ (cs : List Char) (w : Nat),
      (∀ ch ∈ cs, (Base58BTCAlphabet.findIdx? (fun x => x == ch)).isSome) →
      decodeBase58Go (canonRep w) cs =
        .ok (canonRep (cs.foldl (fun a ch => a * 58 + b58Index ch) w))
  | [], _, _ => rfl
  | ch :: rest, w, h => by
    obtain ⟨d, hd⟩ := Option.isSome_iff_exists.mp (h ch (List.mem_cons_self ch rest))
    have hstep : decodeBase58Go (canonRep w) (ch :: rest) =
        decodeBase58Go (decodeBase58Step (canonRep w) d) rest := by
      conv_lhs => unfold decodeBase58Go
      rw [hd]
    rw [hstep, decodeBase58Step_canon,
      decodeBase58Go_spec rest (w * 58 + d) (fun c hc => h c (List.mem_cons_of_mem ch hc))]
    simp [b58Index, hd]

/-- Looking up the character of a digit `d < 58` finds index `d`: the
alphabet has no duplicate characters. -/
theorem b58_lookup_toChar :
    ∀ d, d < 58 →
      Base58BTCAlphabet.findIdx? (fun x => x == toB58Char d) = some d := by
  decide

/-- No digit other than 0 renders as the character `'1'`. -/
theorem toB58Char_ne_one : ∀ d, d < 58 → 0 < d → (toB58Char d == '1') = false := by
  decide

/-- Full base58 round trip for byte arrays with a non-zero leading byte. -/
theorem decodeBase58_encodeBase58 (h : Nat) (t : List Nat) (hh : h ≠ 0)
    (hb : ∀ x ∈ h :: t, x < 256) :
    decodeBase58BTC (encodeBase58BTC (h :: t)) = .ok (h :: t) := by
  set V := polyVal 256 (h :: t) with hV
  have hpos : 0 < V := polyVal_pos 256 h t (by norm_num) hh
  rw [encodeBase58BTC_spec h t hh hb, ← hV]
  have hdig : Nat.digits 58 V ≠ [] := Nat.digits_ne_nil_iff_ne_zero.mpr (by omega)
  have hrev : (Nat.digits 58 V).reverse ≠ [] := by
    simpa [List.reverse_eq_nil_iff] using hdig
  obtain ⟨g, gs, hg⟩ := List.exists_cons_of_ne_nil hrev
  have hgmem : ∀ d ∈ (Nat.digits 58 V).reverse, d < 58 := fun d hd =>
    Nat.digits_lt_base (by norm_num) (List.mem_reverse.mp hd)
  have hgne : g ≠ 0 := by
    have hsome : (Nat.digits 58 V).getLast? = some g := by
      rw [← List.head?_reverse, hg]
      rfl
    have := Nat.getLast_digit_ne_zero 58 (by omega : V ≠ 0)
    rw [getLast_eq_of_some g hdig hsome] at this
    exact this
  have hglt : g < 58 := hgmem g (by rw [hg]; exact List.mem_cons_self g gs)
  rw [decodeBase58BTC]
  rw [hg]
  simp only [List.map_cons, List.isEmpty_cons, Bool.false_eq_true, if_false]
  rw [List.takeWhile_cons_of_neg (by
    rw [toB58Char_ne_one g hglt (Nat.pos_of_ne_zero hgne)]
    simp)]
  have hvalid : ∀ ch ∈ List.map toB58Char (g :: gs),
      (Base58BTCAlphabet.findIdx? (fun x => x == ch)).isSome := by
    intro ch hch
    obtain ⟨d, hdmem, rfl⟩ := List.mem_map.mp hch
    have hdlt : d < 58 := by
      apply hgmem
      rw [hg]
      exact hdmem
    rw [b58_lookup_toChar d hdlt]
    rfl
  have hseed : ([0] : List Nat) = canonRep 0 := rfl
  rw [← List.map_cons, hseed, decodeBase58Go_spec _ 0 (by rw [List.map_cons]; exact hvalid)]
  have hfold : (List.map toB58Char (g :: gs)).foldl (fun a ch => a * 58 + b58Index ch) 0
      = V := by
    rw [List.foldl_map]
    have hcong : ∀ (a : Nat) (d : Nat), d ∈ g :: gs →
        a * 58 + b58Index (toB58Char d) = a * 58 + d := by
      intro a d hdm
      have hdlt : d < 58 := by
        apply hgmem
        rw [hg]
        exact hdm
      rw [b58Index, b58_lookup_toChar d hdlt]
      rfl
    have : (g :: gs).foldl (fun a d => a * 58 + b58Index (toB58Char d)) 0
        = (g :: gs).foldl (fun a d => a * 58 + d) 0 := by
      apply List.foldl_ext
      intro a d hdm
      exact hcong a d hdm
    rw [this]
    have : (g :: gs).foldl (fun a d => a * 58 + d) 0 = polyVal 58 (g :: gs) := rfl
    rw [this, ← hg, polyVal_eq_ofDigits, List.reverse_reverse, Nat.ofDigits_digits]
  rw [hfold]
  have hcanon : canonRep V = h :: t := by
    rw [hV]
    exact eq_canonRep h t hb (fun h0 => absurd h0 hh)
  rw [hcanon]
  rfl

/-! ## Pipeline lemmas for Encode / Decode -/

theorem isEmpty_false_of_ne_nil {α : Type} (l : List α) (h : l ≠ []) :
    l.isEmpty = false := by
  cases l with
  | nil => exact absurd rfl h
  | cons a as => rfl

theorem isPrefixOf_append_self (l r : List Char) : l.isPrefixOf (l ++ r) = true := by
  induction l with
  | nil => simp [List.isPrefixOf]
  | cons a as ih => simp [List.isPrefixOf, ih]

theorem validateKeySize_ok (kt : KeyType) (n : Nat) (bytes : List Nat)
    (h : expectedKeySize? kt = some n) (hl : bytes.length = n) :
    validateKeySize kt bytes = .ok () := by
  unfold validateKeySize
  rw [h]
  simp [hl]

theorem validateKeySize_mismatch (kt : KeyType) (n : Nat) (bytes : List Nat)
    (h : expectedKeySize? kt = some n) (hl : bytes.length ≠ n) :
    validateKeySize kt bytes = .error (.invalidKeySize kt n bytes.length) := by
  unfold validateKeySize
  rw [h]
  simp [hl]

theorem validateKeySize_unsupported (kt : KeyType) (bytes : List Nat)
    (h : expectedKeySize? kt = none) :
    validateKeySize kt bytes = .error (.unsupportedKeyTypeValidate kt) := by
  unfold validateKeySize
  rw [h]

theorem DecodeL_header (rest : List Char) (hne : rest ≠ []) :
    DecodeL (didKeyHeader ++ rest) = decodeStages rest := by
  unfold DecodeL
  rw [if_pos (isPrefixOf_append_self didKeyHeader rest), List.drop_left,
    if_neg (by rw [isEmpty_false_of_ne_nil rest hne]; simp)]
  rfl

theorem decodeMultibase_z (l : List Char) : decodeMultibase ('z' :: l) = decodeBase58BTC l := rfl

theorem decodeMulticodecKey_of (data : List Nat) (tag k : Nat) (kt : KeyType)
    (hne : data ≠ []) (hdc : decodeMulticodec data = .ok (tag, k))
    (hkt : getKeyTypeForMulticodec tag = .ok kt) :
    decodeMulticodecKey data = .ok (kt, data.drop k) := by
  unfold decodeMulticodecKey
  rw [if_neg (by rw [isEmpty_false_of_ne_nil data hne]; simp), hdc]
  dsimp only
  rw [hkt]

/-- Core round-trip argument, shared by the seven key types: the type's
concrete tag data is fed in as hypotheses discharged per type by `rfl` /
`decide`. -/
theorem decode_encoded_aux (kt : KeyType) (tag n b : Nat) (bs : List Nat)
    (hmc : getMulticodecForKeyType kt = .ok tag)
    (htb : encodeMulticodec tag = b :: bs) (hb0 : b ≠ 0)
    (htblt : ∀ x ∈ b :: bs, x < 256)
    (hdec : ∀ bytes : List Nat,
      decodeMulticodec ((b :: bs) ++ bytes) = .ok (tag, (b :: bs).length))
    (hkt : getKeyTypeForMulticodec tag = .ok kt)
    (hsize : expectedKeySize? kt = some n) (hn : 0 < n)
    (bytes : List Nat) (hlen : bytes.length = n) (hblt : ∀ x ∈ bytes, x < 256) :
    ∃ id, Encode kt bytes = .ok id ∧ Decode id = .ok (kt, bytes) := by
  have hbne : bytes ≠ [] := by
    intro hx
    rw [hx] at hlen
    simp at hlen
    omega
  have hval : validateKeySize kt bytes = .ok () := validateKeySize_ok kt n bytes hsize hlen
  have hE : EncodeL kt bytes = .ok (didKeyHeader ++ encodeMultibase ((b :: bs) ++ bytes)) := by
    unfold EncodeL
    rw [if_neg (by rw [isEmpty_false_of_ne_nil bytes hbne]; simp), hval]
    dsimp only
    unfold encodeMulticodecKey
    rw [hmc]
    dsimp only
    rw [htb]
  have hD : Decode (String.mk (didKeyHeader ++ encodeMultibase ((b :: bs) ++ bytes)))
      = .ok (kt, bytes) := by
    unfold Decode
    have hlist : (String.mk (didKeyHeader ++ encodeMultibase ((b :: bs) ++ bytes))).toList
        = didKeyHeader ++ encodeMultibase ((b :: bs) ++ bytes) := rfl
    rw [hlist, DecodeL_header _ (by unfold encodeMultibase; simp)]
    unfold decodeStages encodeMultibase
    rw [decodeMultibase_z]
    have hall : ∀ x ∈ b :: (bs ++ bytes), x < 256 := by
      intro x hx
      rcases List.mem_cons.mp hx with hx | hx
      · rw [hx]
        exact htblt b (List.mem_cons_self b bs)
      · rcases List.mem_append.mp hx with hx | hx
        · exact htblt x (List.mem_cons_of_mem b hx)
        · exact hblt x hx
    rw [List.cons_append, decodeBase58_encodeBase58 b (bs ++ bytes) hb0 hall]
    dsimp only
    rw [← List.cons_append,
      decodeMulticodecKey_of ((b :: bs) ++ bytes) tag (b :: bs).length kt
        (by simp) (hdec bytes) hkt, List.drop_left]
    dsimp only
    rw [hval]
  refine ⟨_, ?_, hD⟩
  unfold Encode
  rw [hE]
  rfl

/-- C1: for every supported KeyType (Ed25519, X25519, secp256k1, BLS12-381
G1, BLS12-381 G2, P-256, P-384) and every byte sequence whose length equals
that type's fixed expected length, `Encode(type, bytes)` succeeds, and
`Decode(Encode(type, bytes))` succeeds and returns exactly `(type, bytes)`. -/
theorem C1_round_trip (kt : KeyType) (n : Nat) (bytes : List Nat)
    (hkt : kt ∈ SupportedKeyTypes) (hsize : expectedKeySize? kt = some n)
    (hlen : bytes.length = n) (hblt : ∀ x ∈ bytes, x < 256) :
    ∃ id, Encode kt bytes = .ok id ∧ Decode id = .ok (kt, bytes) := by
  simp only [SupportedKeyTypes, List.mem_cons, List.not_mem_nil, or_false] at hkt
  rcases hkt with rfl | rfl | rfl | rfl | rfl | rfl | rfl
  · rw [show expectedKeySize? KeyTypeEd25519 = some 32 from rfl] at hsize
    obtain rfl := Option.some.inj hsize
    exact decode_encoded_aux KeyTypeEd25519 0xed 32 0xed [0x01] rfl rfl (by norm_num)
      (by decide) (fun _ => rfl) rfl rfl (by norm_num) bytes hlen hblt
  · rw [show expectedKeySize? KeyTypeX25519 = some 32 from rfl] at hsize
    obtain rfl := Option.some.inj hsize
    exact decode_encoded_aux KeyTypeX25519 0xec 32 0xec [0x01] rfl rfl (by norm_num)
      (by decide) (fun _ => rfl) rfl rfl (by norm_num) bytes hlen hblt
  · rw [show expectedKeySize? KeyTypeSecp256k1 = some 33 from rfl] at hsize
    obtain rfl := Option.some.inj hsize
    exact decode_encoded_aux KeyTypeSecp256k1 0xe7 33 0xe7 [0x01] rfl rfl (by norm_num)
      (by decide) (fun _ => rfl) rfl rfl (by norm_num) bytes hlen hblt
  · rw [show expectedKeySize? KeyTypeBLS12381G1 = some 48 from rfl] at hsize
    obtain rfl := Option.some.inj hsize
    exact decode_encoded_aux KeyTypeBLS12381G1 0xea 48 0xea [0x01] rfl rfl (by norm_num)
      (by decide) (fun _ => rfl) rfl rfl (by norm_num) bytes hlen hblt
  · rw [show expectedKeySize? KeyTypeBLS12381G2 = some 96 from rfl] at hsize
    obtain rfl := Option.some.inj hsize
    exact decode_encoded_aux KeyTypeBLS12381G2 0xeb 96 0xeb [0x01] rfl rfl (by norm_num)
      (by decide) (fun _ => rfl) rfl rfl (by norm_num) bytes hlen hblt
  · rw [show expectedKeySize? KeyTypeP256 = some 33 from rfl] at hsize
    obtain rfl := Option.some.inj hsize
    exact decode_encoded_aux KeyTypeP256 0x1200 33 0x80 [0x24] rfl rfl (by norm_num)
      (by decide) (fun _ => rfl) rfl rfl (by norm_num) bytes hlen hblt
  · rw [show expectedKeySize? KeyTypeP384 = some 49 from rfl] at hsize
    obtain rfl := Option.some.inj hsize
    exact decode_encoded_aux KeyTypeP384 0x1201 49 0x81 [0x24] rfl rfl (by norm_num)
      (by decide) (fun _ => rfl) rfl rfl (by norm_num) bytes hlen hblt

/-- Witness for C1 at a concrete input: the all-zero 32-byte Ed25519 key. -/
theorem C1_round_trip_witness :
    ∃ id, Encode KeyTypeEd25519 (List.replicate 32 0) = .ok id ∧
      Decode id = .ok (KeyTypeEd25519, List.replicate 32 0) :=
  C1_round_trip KeyTypeEd25519 32 (List.replicate 32 0) (by decide) rfl (by decide)
    (by decide)

/-- C2: `Encode(Ed25519, 2e6fcce3…70e6)` returns exactly
`did:key:z6MkhaXgBZDvotDkL5257faiztiGiC2QtKLGpbnnEGta2doK`, `Decode` of
that string returns `(Ed25519, same 32 bytes)`, and re-encoding the result
of `Decode` yields the identical string. -/
theorem C2_known_vector :
    Encode KeyTypeEd25519
        [0x2e, 0x6f, 0xcc, 0xe3, 0x67, 0x01, 0xdc, 0x79, 0x14, 0x88, 0xe0, 0xd0,
         0xb1, 0x74, 0x5c, 0xc1, 0xe3, 0x3a, 0x4c, 0x1c, 0x9f, 0xcc, 0x41, 0xc6,
         0x3b, 0xd3, 0x43, 0xdb, 0xbe, 0x09, 0x70, 0xe6]
      = .ok "did:key:z6MkhaXgBZDvotDkL5257faiztiGiC2QtKLGpbnnEGta2doK" ∧
    Decode "did:key:z6MkhaXgBZDvotDkL5257faiztiGiC2QtKLGpbnnEGta2doK"
      = .ok (KeyTypeEd25519,
        [0x2e, 0x6f, 0xcc, 0xe3, 0x67, 0x01, 0xdc, 0x79, 0x14, 0x88, 0xe0, 0xd0,
         0xb1, 0x74, 0x5c, 0xc1, 0xe3, 0x3a, 0x4c, 0x1c, 0x9f, 0xcc, 0x41, 0xc6,
         0x3b, 0xd3, 0x43, 0xdb, 0xbe, 0x09, 0x70, 0xe6]) := by
  obtain ⟨id, henc, hdec⟩ := decode_encoded_aux KeyTypeEd25519 0xed 32 0xed [0x01]
    rfl rfl (by norm_num) (by decide) (fun _ => rfl) rfl rfl (by norm_num)
    [0x2e, 0x6f, 0xcc, 0xe3, 0x67, 0x01, 0xdc, 0x79, 0x14, 0x88, 0xe0, 0xd0,
     0xb1, 0x74, 0x5c, 0xc1, 0xe3, 0x3a, 0x4c, 0x1c, 0x9f, 0xcc, 0x41, 0xc6,
     0x3b, 0xd3, 0x43, 0xdb, 0xbe, 0x09, 0x70, 0xe6] (by decide) (by decide)
  have hE : Encode KeyTypeEd25519
      [0x2e, 0x6f, 0xcc, 0xe3, 0x67, 0x01, 0xdc, 0x79, 0x14, 0x88, 0xe0, 0xd0,
       0xb1, 0x74, 0x5c, 0xc1, 0xe3, 0x3a, 0x4c, 0x1c, 0x9f, 0xcc, 0x41, 0xc6,
       0x3b, 0xd3, 0x43, 0xdb, 0xbe, 0x09, 0x70, 0xe6]
      = .ok "did:key:z6MkhaXgBZDvotDkL5257faiztiGiC2QtKLGpbnnEGta2doK" := by decide
  have hid : id = "did:key:z6MkhaXgBZDvotDkL5257faiztiGiC2QtKLGpbnnEGta2doK" := by
    rw [henc] at hE
    exact Except.ok.inj hE
  exact ⟨hE, hid ▸ hdec⟩

/-- C3: evaluation of the code at the failing input `[0x00]`.  The encoder
renders the single zero byte as two `'1'` characters (the division loop
emits a spurious index-0 digit for an all-zero array before the leading
zeros are re-added), and decoding that text yields three zero bytes (the
seed byte of the decode loop plus one byte per leading `'1'`), so the
base58 round trip does not reproduce `[0x00]`. -/
theorem C3_zero_byte_base58_behavior :
    encodeBase58BTC [0] = ['1', '1'] ∧
    decodeBase58BTC (encodeBase58BTC [0]) = .ok [0, 0, 0] ∧
    ([0, 0, 0] : List Nat) ≠ [0] := by decide

/-- C9: `Decode` accepts a tag encoded as a non-minimal varint
(`[0xed, 0x81, 0x00]` decodes to `0xed` but `encodeMulticodec 0xed` is
`[0xed, 0x01]`), so there is an identifier accepted by `Decode` whose
re-encoding under `Encode` is a different string: `Encode ∘ Decode` is not
the identity on the identifiers `Decode` accepts. -/
theorem C9_nonminimal_varint_accepted :
    decodeMulticodec [0xed, 0x81, 0x00] = .ok (0xed, 3) ∧
    encodeMulticodec 0xed = [0xed, 0x01] ∧
    Decode "did:key:zQhVUSQB8r3ACLXMQ8ZQ5LScK2FJMWTHMWfePRsSFou3J3afZ"
      = .ok (KeyTypeEd25519, List.replicate 32 0) ∧
    Encode KeyTypeEd25519 (List.replicate 32 0)
      = .ok "did:key:z6MkeTG3bFFSLYVU7VqhgZxqr6YzpaGrQtFMh1uvqGy1vDnP" ∧
    "did:key:zQhVUSQB8r3ACLXMQ8ZQ5LScK2FJMWTHMWfePRsSFou3J3afZ"
      ≠ "did:key:z6MkeTG3bFFSLYVU7VqhgZxqr6YzpaGrQtFMh1uvqGy1vDnP" := by
  refine ⟨by decide, by decide, ?_, by decide, by decide⟩
  have hstr : "did:key:zQhVUSQB8r3ACLXMQ8ZQ5LScK2FJMWTHMWfePRsSFou3J3afZ".toList
      = didKeyHeader ++
        ('z' :: encodeBase58BTC ([0xed, 0x81, 0x00] ++ List.replicate 32 0)) := by decide
  show DecodeL _ = _
  rw [show ("did:key:zQhVUSQB8r3ACLXMQ8ZQ5LScK2FJMWTHMWfePRsSFou3J3afZ").toList
      = didKeyHeader ++
        ('z' :: encodeBase58BTC ([0xed, 0x81, 0x00] ++ List.replicate 32 0)) from hstr,
    DecodeL_header _ (by simp)]
  unfold decodeStages
  rw [decodeMultibase_z]
  have hb58 : decodeBase58BTC (encodeBase58BTC ([0xed, 0x81, 0x00] ++ List.replicate 32 0))
      = .ok ([0xed, 0x81, 0x00] ++ List.replicate 32 0) := by
    have h := decodeBase58_encodeBase58 0xed ([0x81, 0x00] ++ List.replicate 32 0)
      (by norm_num) (by decide)
    simpa using h
  rw [hb58]
  dsimp only
  rw [decodeMulticodecKey_of ([0xed, 0x81, 0x00] ++ List.replicate 32 0) 0xed 3
    KeyTypeEd25519 (by decide) (by decide) rfl,
    show List.drop 3 ([0xed, 0x81, 0x00] ++ List.replicate 32 0) = List.replicate 32 0
      from by decide]
  dsimp only
  rw [validateKeySize_ok KeyTypeEd25519 32 (List.replicate 32 0) rfl (by decide)]

theorem Encode_err_of_badlen (kt : KeyType) (n : Nat) (bytes : List Nat)
    (hsize : expectedKeySize? kt = some n) (hlen : bytes.length ≠ n) :
    ∃ e, Encode kt bytes = .error e := by
  by_cases hb : bytes = []
  · subst hb
    exact ⟨.emptyKeyBytes, rfl⟩
  · refine ⟨.invalidKeySize kt n bytes.length, ?_⟩
    unfold Encode EncodeL
    rw [if_neg (by rw [isEmpty_false_of_ne_nil bytes hb]; simp),
      validateKeySize_mismatch kt n bytes hsize hlen]
    rfl

/-- C4: for every supported KeyType and every byte sequence whose length
differs from that type's fixed expected length (including the empty
sequence), `Encode` fails and returns no identifier; and for secp256k1,
`Encode` succeeds exactly at length 33 (so it rejects 32 and 34). -/
theorem C4_size_rejection :
    (∀ (kt : KeyType) (n : Nat) (bytes : List Nat), kt ∈ SupportedKeyTypes →
      expectedKeySize? kt = some n → bytes.length ≠ n →
      ∃ e, Encode kt bytes = .error e) ∧
    (∀ bytes : List Nat,
      (∃ id, Encode KeyTypeSecp256k1 bytes = .ok id) ↔ bytes.length = 33) := by
  constructor
  · intro kt n bytes _ hsize hlen
    exact Encode_err_of_badlen kt n bytes hsize hlen
  · intro bytes
    constructor
    · rintro ⟨id, hid⟩
      by_contra hne
      obtain ⟨e, he⟩ := Encode_err_of_badlen KeyTypeSecp256k1 33 bytes rfl hne
      rw [he] at hid
      exact absurd hid (by simp)
    · intro hlen
      have hbne : bytes ≠ [] := by
        intro h
        rw [h] at hlen
        simp at hlen
      refine ⟨String.mk (didKeyHeader ++
        encodeMultibase (encodeMulticodec MulticodecSecp256k1Pub ++ bytes)), ?_⟩
      unfold Encode EncodeL
      rw [if_neg (by rw [isEmpty_false_of_ne_nil bytes hbne]; simp),
        validateKeySize_ok KeyTypeSecp256k1 33 bytes rfl hlen]
      dsimp only
      unfold encodeMulticodecKey
      rw [show getMulticodecForKeyType KeyTypeSecp256k1 = .ok MulticodecSecp256k1Pub from rfl]
      rfl

/-- Witness for C4: Ed25519 rejects 2 bytes, secp256k1 rejects 32 and 34
bytes and accepts 33. -/
theorem C4_size_rejection_witness :
    (∃ e, Encode KeyTypeEd25519 [1, 2] = .error e) ∧
    (∃ id, Encode KeyTypeSecp256k1 (List.replicate 33 0) = .ok id) ∧
    (∃ e, Encode KeyTypeSecp256k1 (List.replicate 32 0) = .error e) ∧
    (∃ e, Encode KeyTypeSecp256k1 (List.replicate 34 0) = .error e) :=
  ⟨C4_size_rejection.1 KeyTypeEd25519 32 [1, 2] (by decide) rfl (by decide),
    (C4_size_rejection.2 (List.replicate 33 0)).mpr (by decide),
    C4_size_rejection.1 KeyTypeSecp256k1 33 (List.replicate 32 0) (by decide) rfl (by decide),
    C4_size_rejection.1 KeyTypeSecp256k1 33 (List.replicate 34 0) (by decide) rfl (by decide)⟩

/-! ## Varint decoding: error and success characterization -/

theorem decodeMulticodecLoop_cons (b : Nat) (rest : List Nat) (value shift n : Nat) :
    decodeMulticodecLoop (b :: rest) value shift n =
      if b &&& 0x80 == 0 then .ok (value ||| (b &&& 0x7F) <<< shift % 2 ^ 64, n + 1)
      else if shift + 7 ≥ 64 then .error .multicodecTooLarge
      else decodeMulticodecLoop rest (value ||| (b &&& 0x7F) <<< shift % 2 ^ 64)
        (shift + 7) (n + 1) := rfl

theorem decodeMulticodecLoop_incomplete :
    ∀ (data : List Nat) (value shift n : Nat),
      (∀ b ∈ data, b &&& 0x80 ≠ 0) → shift + 7 * data.length < 64 →
      decodeMulticodecLoop data value shift n = .error .incompleteVarint
  | [], _, _, _, _, _ => rfl
  | b :: rest, value, shift, n, hcont, hlt => by
    have hb : b &&& 0x80 ≠ 0 := hcont b (List.mem_cons_self b rest)
    rw [decodeMulticodecLoop_cons, if_neg (by simpa using hb),
      if_neg (by simp at hlt; omega)]
    exact decodeMulticodecLoop_incomplete rest _ (shift + 7) (n + 1)
      (fun x hx => hcont x (List.mem_cons_of_mem b hx)) (by simp at hlt ⊢; omega)

theorem decodeMulticodecLoop_tooLarge :
    ∀ (data : List Nat) (value shift n k : Nat),
      (∀ b ∈ data.take k, b &&& 0x80 ≠ 0) → 64 ≤ shift + 7 * k →
      k ≤ data.length → shift < 64 →
      decodeMulticodecLoop data value shift n = .error .multicodecTooLarge
  | [], _, shift, _, k, _, hk, hlen, hs => by
    simp at hlen
    omega
  | b :: rest, value, shift, n, k, hcont, hk, hlen, hs => by
    cases k with
    | zero => omega
    | succ k' =>
      have hb : b &&& 0x80 ≠ 0 := hcont b (by simp [List.take_cons])
      rw [decodeMulticodecLoop_cons, if_neg (by simpa using hb)]
      by_cases hsh : shift + 7 ≥ 64
      · rw [if_pos hsh]
      · rw [if_neg hsh]
        exact decodeMulticodecLoop_tooLarge rest _ (shift + 7) (n + 1) k'
          (fun x hx => hcont x (by simp [List.take_cons]; exact .inr hx))
          (by omega) (by simpa using hlen) (by omega)

theorem decodeMulticodecLoop_ok :
    ∀ (data : List Nat) (value shift n v k : Nat),
      decodeMulticodecLoop data value shift n = .ok (v, k) → shift < 64 →
      ∃ j, k = n + j + 1 ∧ j < data.length ∧
        (∀ i, i < j → data.getD i 0 &&& 0x80 ≠ 0) ∧
        data.getD j 0 &&& 0x80 = 0 ∧
        (∀ tail, decodeMulticodecLoop (data.take (j + 1) ++ tail) value shift n
          = .ok (v, k)) ∧
        7 * j + shift < 64
  | [], _, _, _, _, _, h, _ => by cases h
  | b :: rest, value, shift, n, v, k, h, hs => by
    rw [decodeMulticodecLoop_cons] at h
    by_cases hb : b &&& 0x80 = 0
    · rw [if_pos (by simpa using hb)] at h
      have hp := Except.ok.inj h
      have hv : value ||| (b &&& 0x7F) <<< shift % 2 ^ 64 = v := congrArg Prod.fst hp
      have hk : n + 1 = k := congrArg Prod.snd hp
      refine ⟨0, by omega, by simp, by omega, by simpa using hb, ?_, by omega⟩
      intro tail
      rw [List.take_succ_cons, List.take_zero, List.cons_append, List.nil_append,
        decodeMulticodecLoop_cons, if_pos (by simpa using hb), hv, hk]
    · rw [if_neg (by simpa using hb)] at h
      have hsh : ¬shift + 7 ≥ 64 := by
        intro hge
        rw [if_pos hge] at h
        cases h
      rw [if_neg hsh] at h
      obtain ⟨j', hk', hjlen, hpre, hterm, hdet, hbound⟩ :=
        decodeMulticodecLoop_ok rest _ (shift + 7) (n + 1) v k h (by omega)
      refine ⟨j' + 1, by omega, by simpa using Nat.succ_lt_succ hjlen, ?_, ?_, ?_, by omega⟩
      · intro i hi
        match i with
        | 0 => simpa using hb
        | i' + 1 => exact hpre i' (by omega)
      · simpa using hterm
      · intro tail
        rw [List.take_succ_cons, List.cons_append, decodeMulticodecLoop_cons,
          if_neg (by simpa using hb), if_neg hsh]
        exact hdet tail

/-- C5 counterexample: ten continuation bytes contain no terminating byte,
yet `decodeMulticodec` reports the overflow error, not the malformed-varint
(incomplete) error the claim requires for all unterminated inputs. -/
theorem C5_counterexample :
    decodeMulticodec (List.replicate 10 0x80) = .error .multicodecTooLarge ∧
    (∀ b ∈ List.replicate 10 0x80, b &&& 0x80 ≠ 0) ∧
    MulticodecError.multicodecTooLarge ≠ MulticodecError.incompleteVarint := by decide

/-- C5 (amended): `decodeMulticodec` fails with the empty-data error on
empty input; with the incomplete-varint (malformed) error on non-empty
inputs of at most 9 bytes all carrying the continuation bit; with the
overflow error whenever the first 10 bytes all carry the continuation bit
(the 64-bit shift budget is exhausted at the 10th continuation group,
taking precedence over end-of-input); and on success it returns the value
with exactly the number of bytes consumed, the consumed region ending at
the first byte with the continuation bit clear, at most min(length, 10)
bytes, and the result depends only on the consumed prefix (it never reads
past the terminating byte). -/
theorem C5_varint_errors_amended :
    decodeMulticodec [] = .error .emptyVarintData ∧
    (∀ data : List Nat, data ≠ [] → data.length ≤ 9 →
      (∀ b ∈ data, b &&& 0x80 ≠ 0) →
      decodeMulticodec data = .error .incompleteVarint) ∧
    (∀ data : List Nat, 10 ≤ data.length → (∀ b ∈ data.take 10, b &&& 0x80 ≠ 0) →
      decodeMulticodec data = .error .multicodecTooLarge) ∧
    (∀ (data : List Nat) (v n : Nat), decodeMulticodec data = .ok (v, n) →
      1 ≤ n ∧ n ≤ data.length ∧ n ≤ 10 ∧
      (∀ i, i + 1 < n → data.getD i 0 &&& 0x80 ≠ 0) ∧
      data.getD (n - 1) 0 &&& 0x80 = 0 ∧
      (∀ tail, decodeMulticodec (data.take n ++ tail) = .ok (v, n))) := by
  refine ⟨rfl, ?_, ?_, ?_⟩
  · intro data hne hlen hcont
    unfold decodeMulticodec
    rw [if_neg (by rw [isEmpty_false_of_ne_nil data hne]; simp)]
    exact decodeMulticodecLoop_incomplete data 0 0 0 hcont (by omega)
  · intro data hlen hcont
    have hne : data ≠ [] := by
      intro hx
      rw [hx] at hlen
      simp at hlen
    unfold decodeMulticodec
    rw [if_neg (by rw [isEmpty_false_of_ne_nil data hne]; simp)]
    exact decodeMulticodecLoop_tooLarge data 0 0 0 10 hcont (by omega) hlen (by omega)
  · intro data v n h
    unfold decodeMulticodec at h
    split at h
    · cases h
    · obtain ⟨j, hn, hjlen, hpre, hterm, hdet, hbound⟩ :=
        decodeMulticodecLoop_ok data 0 0 0 v n h (by omega)
      have hj : n - 1 = j := by omega
      refine ⟨by omega, by omega, by omega, ?_, by rw [hj]; exact hterm, ?_⟩
      · intro i hi
        exact hpre i (by omega)
      · intro tail
        have htne : data.take n ++ tail ≠ [] := by
          simp only [ne_eq, List.append_eq_nil, List.take_eq_nil_iff, not_and, not_or]
          intro h1
          rcases h1 with h1 | h1
          · omega
          · rw [h1] at hjlen
            simp at hjlen
        unfold decodeMulticodec
        rw [if_neg (by rw [isEmpty_false_of_ne_nil _ htne]; simp)]
        have := hdet tail
        rw [show j + 1 = n from by omega] at this
        exact this

/-- Witness for C5 (amended) at concrete inputs: a lone continuation byte,
eleven continuation bytes, and the two-byte varint `[0xed, 0x01]` with a
replaced suffix. -/
theorem C5_varint_errors_amended_witness :
    decodeMulticodec [0x80] = .error .incompleteVarint ∧
    decodeMulticodec (List.replicate 11 0x80) = .error .multicodecTooLarge ∧
    decodeMulticodec (([0xed, 0x01] : List Nat).take 2 ++ [0x99]) = .ok (0xed, 2) :=
  ⟨C5_varint_errors_amended.2.1 [0x80] (by decide) (by decide) (by decide),
    C5_varint_errors_amended.2.2.1 (List.replicate 11 0x80) (by decide) (by decide),
    (C5_varint_errors_amended.2.2.2 [0xed, 0x01] 0xed 2 (by decide)).2.2.2.2.2 [0x99]⟩

theorem getKeyTypeForMulticodec_error_eq (c : Nat) (e : DKError)
    (h : getKeyTypeForMulticodec c = .error e) : e = .unsupportedMulticodec c := by
  unfold getKeyTypeForMulticodec at h
  repeat' split at h
  all_goals try cases h
  all_goals rfl

theorem getKeyTypeForMulticodec_ok_size (c : Nat) (kt : KeyType)
    (h : getKeyTypeForMulticodec c = .ok kt) :
    ∃ m, expectedKeySize? kt = some m ∧ 0 < m := by
  unfold getKeyTypeForMulticodec at h
  repeat' split at h
  all_goals try cases h
  all_goals exact ⟨_, rfl, by norm_num⟩

/-- C6 counterexample: `did:key:zK36` carries exactly the well-formed
varint `[0xed, 0x01]` and nothing after it, yet `Decode` fails with the
invalid-key-size error (expected 32, got 0), not the no-key-data-after-
varint error. -/
theorem C6_counterexample :
    decodeMultibase "zK36".toList = .ok [0xed, 0x01] ∧
    decodeMulticodec [0xed, 0x01] = .ok (0xed, 2) ∧
    Decode "did:key:zK36" = .error (DKError.invalidKeySize KeyTypeEd25519 32 0) ∧
    DKError.invalidKeySize KeyTypeEd25519 32 0 ≠ DKError.noKeyDataAfterVarint := by decide

/-- C6 (amended): for every identifier whose tagged-bytes payload is
exactly a well-formed varint with nothing after it, `Decode` fails, and
never with the NoKeyDataAfterVarint error; specifically it returns the
unsupported-multicodec error when the decoded tag is unknown, and the
invalid-key-size error reporting expected `n`, got 0 when the tag maps to
a supported type of expected size `n > 0`.  The NoKeyDataAfterVarint error
value exists in errors.go but only the alternate revision of `Decode`
(did_key.go) can return it. -/
theorem C6_varint_consumes_all_amended :
    ∀ (rest : List Char) (payload : List Nat) (v : Nat),
      decodeMultibase rest = .ok payload →
      decodeMulticodec payload = .ok (v, payload.length) →
      (∃ e, DecodeL (didKeyHeader ++ rest) = .error e ∧
        e ≠ DKError.noKeyDataAfterVarint) ∧
      (DecodeL (didKeyHeader ++ rest) = .error (DKError.unsupportedMulticodec v) ∨
        ∃ kt n, getKeyTypeForMulticodec v = .ok kt ∧ expectedKeySize? kt = some n ∧
          0 < n ∧
          DecodeL (didKeyHeader ++ rest) = .error (DKError.invalidKeySize kt n 0)) := by
  intro rest payload v hmb hdc
  have hrne : rest ≠ [] := by
    intro hx
    rw [hx] at hmb
    simp [decodeMultibase] at hmb
  have hpne : payload ≠ [] := by
    intro hx
    rw [hx] at hdc
    simp [decodeMulticodec] at hdc
  cases hg : getKeyTypeForMulticodec v with
  | error e =>
    have he := getKeyTypeForMulticodec_error_eq v e hg
    subst he
    have hDL : DecodeL (didKeyHeader ++ rest)
        = .error (DKError.unsupportedMulticodec v) := by
      rw [DecodeL_header rest hrne]
      unfold decodeStages
      rw [hmb]
      dsimp only
      have hkey : decodeMulticodecKey payload
          = .error (DKError.unsupportedMulticodec v) := by
        unfold decodeMulticodecKey
        rw [if_neg (by rw [isEmpty_false_of_ne_nil payload hpne]; simp), hdc]
        dsimp only
        rw [hg]
      rw [hkey]
    exact ⟨⟨_, hDL, fun hc => by cases hc⟩, .inl hDL⟩
  | ok kt2 =>
    obtain ⟨m, hm, hmpos⟩ := getKeyTypeForMulticodec_ok_size v kt2 hg
    have hDL : DecodeL (didKeyHeader ++ rest)
        = .error (DKError.invalidKeySize kt2 m 0) := by
      rw [DecodeL_header rest hrne]
      unfold decodeStages
      rw [hmb]
      dsimp only
      have hkey : decodeMulticodecKey payload = .ok (kt2, []) := by
        have h0 := decodeMulticodecKey_of payload v payload.length kt2 hpne hdc hg
        rwa [List.drop_length] at h0
      rw [hkey]
      dsimp only
      rw [validateKeySize_mismatch kt2 m [] hm (by simp; omega)]
      rfl
    exact ⟨⟨_, hDL, fun hc => by cases hc⟩, .inr ⟨kt2, m, rfl, hm, hmpos, hDL⟩⟩

/-- Witness for C6 (amended) at the identifier remainder `zK36`, whose
payload is exactly the well-formed varint `[0xed, 0x01]`. -/
theorem C6_varint_consumes_all_amended_witness :
    (∃ e, DecodeL (didKeyHeader ++ "zK36".toList) = .error e ∧
      e ≠ DKError.noKeyDataAfterVarint) ∧
    (DecodeL (didKeyHeader ++ "zK36".toList)
        = .error (DKError.unsupportedMulticodec 0xed) ∨
      ∃ kt n, getKeyTypeForMulticodec 0xed = .ok kt ∧ expectedKeySize? kt = some n ∧
        0 < n ∧
        DecodeL (didKeyHeader ++ "zK36".toList)
          = .error (DKError.invalidKeySize kt n 0)) :=
  C6_varint_consumes_all_amended "zK36".toList [0xed, 0x01] 0xed (by decide) (by decide)

/-- C7 counterexample: `Decode("")` fails with the prefix error, not with
the empty-identifier (empty-multibase-string) error the claim names. -/
theorem C7_counterexample :
    Decode "" = .error DKError.invalidDIDKeyHeader ∧
    DKError.invalidDIDKeyHeader ≠ DKError.emptyMultibaseString := by decide

/-- C7 (amended): `Decode("did:web:" + s)` fails with the prefix error for
every string `s`, and `Decode("")` also fails with the prefix error (the
empty string does not start with `did:key:`); the empty-multibase error
occurs exactly for the bare `did:key:` identifier. -/
theorem C7_prefix_rejection_amended :
    (∀ s : String, Decode ("did:web:" ++ s) = .error DKError.invalidDIDKeyHeader) ∧
    Decode "" = .error DKError.invalidDIDKeyHeader ∧
    Decode "did:key:" = .error DKError.emptyMultibaseString := by
  refine ⟨?_, by decide, by decide⟩
  intro s
  show DecodeL ("did:web:" ++ s).toList = _
  have h1 : ("did:web:" ++ s).toList = "did:web:".toList ++ s.toList := by
    simp [String.toList]
  rw [h1]
  unfold DecodeL
  rw [if_neg (by
    rw [show didKeyHeader.isPrefixOf ("did:web:".toList ++ s.toList) = false from rfl]
    simp)]

/-- Witness for C7 (amended) at the concrete string `z6Mk`. -/
theorem C7_prefix_rejection_amended_witness :
    Decode ("did:web:" ++ "z6Mk") = .error DKError.invalidDIDKeyHeader :=
  C7_prefix_rejection_amended.1 "z6Mk"

theorem findIdx_none_not_mem :
    ∀ (l : List Char) (c : Char) (i : Nat),
      List.findIdx? (fun x => x == c) l i = none → c ∉ l
  | [], _, _, _ => by simp
  | a :: as, c, i, h => by
    rw [List.findIdx?_cons] at h
    by_cases ha : (a == c) = true
    · rw [if_pos ha] at h
      cases h
    · rw [if_neg ha] at h
      intro hmem
      rcases List.mem_cons.mp hmem with hc | hc
      · exact ha (by rw [hc]; simp)
      · exact findIdx_none_not_mem as c (i + 1) h hc

theorem findIdx_some_mem :
    ∀ (l : List Char) (c : Char) (i d : Nat),
      List.findIdx? (fun x => x == c) l i = some d → c ∈ l
  | [], c, i, d, h => by
    rw [show List.findIdx? (fun x => x == c) [] i = none from rfl] at h
    cases h
  | a :: as, c, i, d, h => by
    rw [List.findIdx?_cons] at h
    by_cases ha : (a == c) = true
    · have hac : a = c := by simpa using ha
      rw [← hac]
      exact List.mem_cons_self a as
    · rw [if_neg ha] at h
      exact List.mem_cons_of_mem a (findIdx_some_mem as c (i + 1) d h)

theorem decodeBase58Go_err :
    ∀ (cs : List Char) (decoded : List Nat) (c : Char),
      c ∈ cs → c ∉ Base58BTCAlphabet →
      ∃ bad, decodeBase58Go decoded cs = .error (.invalidBase58Char bad) ∧
        bad ∉ Base58BTCAlphabet
  | [], _, c, hc, _ => absurd hc (by simp)
  | ch :: rest, decoded, c, hc, hnot => by
    cases hidx : Base58BTCAlphabet.findIdx? (fun x => x == ch) with
    | none =>
      refine ⟨ch, ?_, findIdx_none_not_mem _ ch 0 hidx⟩
      conv_lhs => unfold decodeBase58Go
      rw [hidx]
    | some d =>
      have hch : ch ∈ Base58BTCAlphabet := findIdx_some_mem _ ch 0 d hidx
      have hcrest : c ∈ rest := by
        rcases List.mem_cons.mp hc with hce | hce
        · rw [hce] at hnot
          exact absurd hch hnot
        · exact hce
      have hstep : decodeBase58Go decoded (ch :: rest)
          = decodeBase58Go (decodeBase58Step decoded d) rest := by
        conv_lhs => unfold decodeBase58Go
        rw [hidx]
      rw [hstep]
      exact decodeBase58Go_err rest _ c hcrest hnot

/-- C8: `decodeBase58BTC` fails with an invalid-character error on every
string containing a character outside the fixed 58-character alphabet; in
particular `0`, `O`, `I`, `l` are outside the alphabet (so any string
containing them fails), and membership is case-sensitive (`o`, `i`, `L`
are inside while their case partners are outside). -/
theorem C8_alphabet_rejection :
    (∀ (s : String) (c : Char), c ∈ s.toList → c ∉ Base58BTCAlphabet →
      ∃ bad, decodeBase58BTC s.toList = .error (.invalidBase58Char bad) ∧
        bad ∉ Base58BTCAlphabet) ∧
    ('0' ∉ Base58BTCAlphabet ∧ 'O' ∉ Base58BTCAlphabet ∧
      'I' ∉ Base58BTCAlphabet ∧ 'l' ∉ Base58BTCAlphabet) ∧
    ('o' ∈ Base58BTCAlphabet ∧ 'i' ∈ Base58BTCAlphabet ∧ 'L' ∈ Base58BTCAlphabet) := by
  refine ⟨?_, by decide, by decide⟩
  intro s c hc hnot
  have hne : s.toList ≠ [] := by
    intro hx
    rw [hx] at hc
    cases hc
  unfold decodeBase58BTC
  rw [if_neg (by rw [isEmpty_false_of_ne_nil _ hne]; simp)]
  obtain ⟨bad, hbad, hbadnot⟩ := decodeBase58Go_err s.toList [0] c hc hnot
  rw [hbad]
  exact ⟨bad, rfl, hbadnot⟩

/-- Witness for C8 at the concrete string `z0z` containing `'0'`. -/
theorem C8_alphabet_rejection_witness :
    ∃ bad, decodeBase58BTC "z0z".toList = .error (.invalidBase58Char bad) ∧
      bad ∉ Base58BTCAlphabet :=
  C8_alphabet_rejection.1 "z0z" '0' (by decide) (by decide)

/-- C10 counterexample: for the unknown type `"RSA"` and the empty byte
sequence, `Encode` returns the empty-key-bytes error (the empty-bytes gate
fires before the type switch), not an unsupported-key-type error. -/
theorem C10_counterexample :
    Encode "RSA" [] = .error DKError.emptyKeyBytes ∧
    DKError.emptyKeyBytes ≠ DKError.unsupportedKeyTypeValidate "RSA" := by decide

/-- C10 (amended): KeyType is a string type; for every string outside the
seven supported constants, `Encode` never produces an identifier: it
returns the unsupported-key-type validation error for every non-empty byte
sequence, and the empty-key-bytes error for the empty sequence. -/
theorem C10_unknown_type_amended :
    ∀ kt : KeyType, kt ∉ SupportedKeyTypes →
      (∀ bytes : List Nat, bytes ≠ [] →
        Encode kt bytes = .error (.unsupportedKeyTypeValidate kt)) ∧
      Encode kt [] = .error .emptyKeyBytes := by
  intro kt hkt
  have hsize : expectedKeySize? kt = none := by
    simp only [SupportedKeyTypes, List.mem_cons, List.not_mem_nil, or_false,
      not_or] at hkt
    obtain ⟨h1, h2, h3, h4, h5, h6, h7⟩ := hkt
    unfold expectedKeySize?
    rw [if_neg (by simpa using h1), if_neg (by simpa using h2),
      if_neg (by simpa using h3), if_neg (by simpa using h4),
      if_neg (by simpa using h5), if_neg (by simpa using h6),
      if_neg (by simpa using h7)]
  constructor
  · intro bytes hbne
    unfold Encode EncodeL
    rw [if_neg (by rw [isEmpty_false_of_ne_nil bytes hbne]; simp),
      validateKeySize_unsupported kt bytes hsize]
    rfl
  · rfl

/-- Witness for C10 (amended) at the concrete type `"RSA"`. -/
theorem C10_unknown_type_amended_witness :
    Encode "RSA" [1] = .error (DKError.unsupportedKeyTypeValidate "RSA") ∧
    Encode "RSA" [] = .error DKError.emptyKeyBytes :=
  ⟨(C10_unknown_type_amended "RSA" (by decide)).1 [1] (by decide),
    (C10_unknown_type_amended "RSA" (by decide)).2⟩
